import Mathlib

/-! Shallow embedding of the claims-relevant core of this repository.

Shallow embedding of `src/main.py` of spotify-to-tidal.

Text is modelled as a list of Unicode codepoints (`List Nat`); the character
classes used by the program (`str.lower`, the regex class `\s`) are modelled
on the ASCII range, which is the range all of the program's fixed tokens and
the counterexample inputs live in.  Recursive text transformations carry an
explicit fuel argument equal to the input length so that every definition is
a structural recursion that the kernel can evaluate.
-/

namespace S2T

/-- Text is a list of Unicode codepoints. -/
abbrev Text := List Nat

/-- Turn a Lean string literal into a codepoint list, for concrete inputs. -/
def strT (s : String) : Text := s.data.map Char.toNat

/-- Model of `str.lower` on one codepoint (ASCII range: `A`-`Z` maps down). -/
def lowerCp (n : Nat) : Nat := if 65 ≤ n ∧ n ≤ 90 then n + 32 else n

/-- Model of the regex class `\s` on one codepoint: space, tab, LF, VT, FF, CR. -/
def isWsCp (n : Nat) : Bool := n == 32 || n == 9 || n == 10 || n == 11 || n == 12 || n == 13

/-- Does the token `t` occur as the leading segment of `s`? (one literal
alternative of the compiled regex tested at the current position). -/
def matchTok : Text → Text → Bool
  | [], _ => true
  | _ :: _, [] => false
  | a :: as, b :: bs => a == b && matchTok as bs

/-- The `replace_list` of `clean` in `src/main.py`, in the alternation order
in which `re.sub` tries the alternatives at each position. -/
def noiseTokens : List Text :=
  [strT "&", strT "@", strT "(", strT ")", strT "ft.", strT "feat.",
   strT "featuring", strT "original mix"]

/-- First alternative of the alternation matching at the current position. -/
def findTok (toks : List Text) (s : Text) : Option Text :=
  toks.find? (fun t => matchTok t s)

/-- Model of `re.sub(pattern, "", text)` for an alternation of literal
tokens: scan left to right, delete the first alternative matching at each
position, resume after the deleted occurrence.  Fuel-structured; callers pass
fuel = length of the input. -/
def removeNoiseF (toks : List Text) : Nat → Text → Text
  | 0, _ => []
  | _, [] => []
  | fuel + 1, c :: rest =>
    match findTok toks (c :: rest) with
    | some t => removeNoiseF toks fuel (rest.drop (t.length - 1))
    | none => c :: removeNoiseF toks fuel rest

/-- Single left-to-right deletion pass of the noise tokens. -/
def removeNoise (toks : List Text) (s : Text) : Text := removeNoiseF toks s.length s

/-- Model of `re.sub(r"[-]", " ", text)`. -/
def hyph (s : Text) : Text := s.map (fun n => if n == 45 then 32 else n)

/-- Model of `re.sub(r"\s+", " ", text)`: each maximal whitespace run becomes
one space.  Fuel-structured; callers pass fuel = length of the input. -/
def squeezeF : Nat → Text → Text
  | 0, _ => []
  | _, [] => []
  | fuel + 1, c :: rest =>
    if isWsCp c then 32 :: squeezeF fuel (rest.dropWhile isWsCp)
    else c :: squeezeF fuel rest

/-- Collapse every whitespace run to a single space. -/
def squeeze (s : Text) : Text := squeezeF s.length s

/-- Model of `str.strip()`: drop whitespace from both ends. -/
def strip (s : Text) : Text :=
  ((s.dropWhile isWsCp).reverse.dropWhile isWsCp).reverse

/-- Embedding of `clean` (`src/main.py` lines 46-63): lowercase, delete the
noise tokens in one pass, turn hyphens into spaces, collapse whitespace,
strip. -/
def clean (s : Text) : Text :=
  strip (squeeze (hyph (removeNoise noiseTokens (s.map lowerCp))))

/-- Is the leading character, when any, a non-whitespace character? -/
def headNonWs : Text → Prop
  | [] => True
  | c :: _ => isWsCp c = false

/-- Every whitespace character of the text is the plain space. -/
abbrev wsAll32 (l : Text) : Prop := ∀ x ∈ l, isWsCp x = true → x = 32

/-- No two adjacent characters of the text are both whitespace. -/
abbrev wsNoAdj (l : Text) : Prop :=
  l.Chain' (fun a b => ¬(isWsCp a = true ∧ isWsCp b = true))

/-! Matcher: `search_tidal_by_name_and_artist` (lines 150-209) -/

/-- A result returned by the target-catalog search (a `tidalapi.Track`):
its id, title, first artist name, and optional ISRC (`t.isrc` may be `None`). -/
structure TTrack where
  tid : Nat
  tname : Text
  tartist : Text
  tisrc : Option Text
deriving DecidableEq

/-- Confidence tag of a match, per the spec's `MatchResult` data model. -/
inductive Confidence
  | exactId
  | fuzzy (score : Int)
  | userChosen
deriving DecidableEq

/-- Outcome of one matcher invocation.  `noCandidates` and `skipped` are the
two `return None` paths; `noInput` models the operator input stream running
dry (the real loop would block forever on `input()`); `indexError` models the
uncaught Python `IndexError` from `tracks[selected - 1]`. -/
inductive TOutcome
  | matched (t : TTrack) (conf : Confidence)
  | noCandidates
  | skipped
  | noInput
  | indexError (k : Nat)
deriving DecidableEq

/-- One line typed by the operator at the `input()` prompt, after Python's
`int()` parse: empty line, a non-numeric line, or an integer. -/
inductive OpInput
  | empty
  | notNum
  | num (k : Int)
deriving DecidableEq

/-- The exact-identifier pass (lines 162-164): first candidate whose `isrc`
equals the source value under Python `==` (`None == None` is true). -/
def exactFind (sisrc : Option Text) (tracks : List TTrack) : Option TTrack :=
  tracks.find? (fun t => t.tisrc == sisrc)

/-- The per-candidate similarity scores (line 166-170):
`fuzz.token_set_ratio(name, t.name)` rounded to an integer.  The external
rapidfuzz scorer is an oracle parameter `ratio` of the embedding. -/
def fuzzyScores (ratio : Text → Text → Int) (sname : Text) (tracks : List TTrack) : List Int :=
  tracks.map (fun t => ratio sname t.tname)

/-- Lexicographic key of numpy's stable ascending argsort: compare scores,
break ties by original index. -/
def ascIdx (scores : List Int) (i j : Nat) : Prop :=
  scores.getD i 0 < scores.getD j 0 ∨ (scores.getD i 0 = scores.getD j 0 ∧ i ≤ j)

instance (scores : List Int) : DecidableRel (ascIdx scores) := fun i j => by
  unfold ascIdx; infer_instance

/-- Model of `np.argsort(fuzzy_scores)` (ascending, stable): the unique
permutation of indices sorted by (score, index).  numpy's default sort is an
introsort that is insertion sort (stable) on small arrays and is not
guaranteed stable on larger ones; the stable model is the reading most
favourable to the spec's stability claim. -/
def argsortAsc (scores : List Int) : List Nat :=
  List.insertionSort (ascIdx scores) (List.range scores.length)

/-- Model of `np.argsort(fuzzy_scores)[::-1]` (line 173): full reversal of
the ascending argsort. -/
def rankedIdx (scores : List Int) : List Nat := (argsortAsc scores).reverse

/-- Model of `top_n = np.argsort(fuzzy_scores)[::-1][:n]` with `n = 9`. -/
def topN (scores : List Int) : List Nat := (rankedIdx scores).take 9

/-- The candidates printed to the operator (lines 186-189), in display
order: `tracks[i]` for `i` in `top_n`. -/
def presentedTracks (tracks : List TTrack) (scores : List Int) : List TTrack :=
  (topN scores).filterMap (fun i => tracks.get? i)

/-- The interactive selection loop (lines 191-209): empty input returns
`None` (skip); a non-integer re-prompts; an integer outside `{1..9}`
re-prompts; an integer in `{1..9}` returns `tracks[selected - 1]`, which
raises `IndexError` when `selected - 1` is out of bounds.  The fixed bound
`n = 9` is independent of how many candidates exist. -/
def interactLoop (tracks : List TTrack) : List OpInput → TOutcome
  | [] => .noInput
  | i :: rest =>
    match i with
    | .empty => .skipped
    | .notNum => interactLoop tracks rest
    | .num k =>
      if 1 ≤ k ∧ k ≤ 9 then
        match tracks.get? (k - 1).toNat with
        | some t => .matched t .userChosen
        | none => .indexError (k - 1).toNat
      else interactLoop tracks rest

/-- Embedding of `search_tidal_by_name_and_artist` (lines 150-209) after the
search call: `ratio` is the external rapidfuzz scorer, `tracks` the search
results for the track's query, `inputs` the operator's lines.  Empty results
return `None`; then the exact-ISRC pass; under `auto` the function returns
`tracks[0]` with the score `fuzzy_scores[0]`; otherwise the interactive
loop runs. -/
def search_tidal_by_name_and_artist (ratio : Text → Text → Int) (auto : Bool) (sname : Text)
    (sisrc : Option Text) (tracks : List TTrack) (inputs : List OpInput) : TOutcome :=
  if tracks.isEmpty then .noCandidates
  else
    match exactFind sisrc tracks with
    | some t => .matched t .exactId
    | none =>
      let scores := fuzzyScores ratio sname tracks
      if auto then
        match tracks.head? with
        | some t0 => .matched t0 (.fuzzy (scores.headD 0))
        | none => .noCandidates
      else interactLoop tracks inputs

/-! Batch Writer: `add_tracks` (lines 212-217) and the batching in `main`
(lines 264-279) -/

/-- Folds the per-track loop of `main` over the per-track match results
(`some id` when a counterpart was found, `none` otherwise): the matched id is
appended to the batch and, when the batch reaches `chunk`, one bulk-add of
the batch is issued and the batch cleared.  Returns the bulk-adds issued
during processing and the batch left at end-of-input. -/
def flushSim (chunk : Nat) : List (Option Nat) → List Nat → List (List Nat) × List Nat
  | [], batch => ([], batch)
  | r :: rs, batch =>
    match r with
    | none => flushSim chunk rs batch
    | some tid =>
      let b := batch ++ [tid]
      if b.length = chunk then
        let p := flushSim chunk rs []
        (b :: p.1, p.2)
      else flushSim chunk rs b

/-- All bulk-add calls of the run: the in-loop flushes plus the final
`add_tracks(playlist, batch)` (line 279), which per lines 213-214 issues no
call when the remaining batch is empty. -/
def runFlushes (chunk : Nat) (results : List (Option Nat)) : List (List Nat) :=
  let p := flushSim chunk results []
  if p.2.isEmpty then p.1 else p.1 ++ [p.2]

/-- The conjunction of the batch-writer properties of claim C8, for a run
with `n` matched identifiers: exactly `floor(n / chunk)` full-chunk bulk-adds
during processing, a remainder batch of `n mod chunk` identifiers, the
concatenation of all issued bulk-adds is the matched identifiers in source
order, and an empty remainder adds no extra bulk-add call. -/
def batchSpec (chunk : Nat) (results : List (Option Nat)) : Prop :=
  (flushSim chunk results []).1.length = (results.filterMap id).length / chunk ∧
  (∀ l ∈ (flushSim chunk results []).1, l.length = chunk) ∧
  (flushSim chunk results []).2.length = (results.filterMap id).length % chunk ∧
  (runFlushes chunk results).flatten = results.filterMap id ∧
  ((flushSim chunk results []).2 = [] →
    runFlushes chunk results = (flushSim chunk results []).1)

/-! Orchestrator: per-playlist body of `main` (lines 256-284) -/

/-- The persisted per-playlist `SyncState`: `{"idx": ..., "missing": [...]}`. -/
structure PlState (α : Type) where
  idx : Nat
  missing : List α
deriving DecidableEq

/-- One observable event of a per-playlist run: a bulk-add to the target
playlist, or a write of the state file. -/
inductive Ev (α : Type)
  | flush (ids : List Nat)
  | persist (st : PlState α)
deriving DecidableEq

/-- Is the event a state-file write? -/
def Ev.isPersist {α : Type} : Ev α → Bool
  | .persist _ => true
  | _ => false

/-- Embedding of the per-playlist body of `main` (lines 256-284): drop the
already-processed head (`tracks[start_idx:]`), match each remaining track
through the oracle `find` (the deterministic outcome of
`search_tidal_by_name_and_artist` against an unchanging catalog), batch the
matches with `chunk = batch_size`, flush the remainder, and only then extend
`idx` by the number processed, extend `missing`, and write the state file
once (line 284).  Returns the event trace in program order and the new
state. -/
def syncPlaylist {α : Type} (chunk : Nat) (find : α → Option Nat)
    (st : PlState α) (tracks : List α) : List (Ev α) × PlState α :=
  let rem := tracks.drop st.idx
  let results := rem.map find
  let missingRun := rem.filter (fun t => (find t).isNone)
  let st2 : PlState α := ⟨st.idx + rem.length, st.missing ++ missingRun⟩
  ((runFlushes chunk results).map Ev.flush ++ [Ev.persist st2], st2)

/-! Source fetch: `fetch_spotify_playlist_tracks` (lines 113-133) -/

/-- One artist entry of a source item; `aname` is `None` when the entry has
no `"name"` key (access then raises `KeyError`). -/
structure SpArtist where
  aname : Option Text
deriving DecidableEq

/-- One source track object.  `tname` is read with `.get("name")`, so a
missing name never raises.  `artists` models `track["artists"]`: a missing
key behaves like an empty list (either way index 0 raises).  `isrcEntry` is
`none` when `track["external_ids"]` or its `"isrc"` key is missing (either
access raises `KeyError`); when present it holds the value, itself possibly
JSON null. -/
structure SpTrack where
  tname : Option Text
  artists : List SpArtist
  isrcEntry : Option (Option Text)
deriving DecidableEq

/-- One playlist item; a falsy `item.get("track")` is skipped. -/
structure SpItem where
  track : Option SpTrack
deriving DecidableEq

/-- The record the fetch appends per track: query, name, first artist, isrc. -/
structure SrcRecord where
  query : Text
  name : Option Text
  artist : Text
  isrc : Option Text
deriving DecidableEq

/-- Python f-string rendering of an optional value: `None` prints as "None". -/
def pyFmt : Option Text → Text
  | none => strT "None"
  | some t => t

/-- Ingestion of one playlist item (lines 117-129): skip a missing track,
read the name with `.get` (no raise), raise on an absent first artist, on an
artist without a name, and on a missing `external_ids`/`isrc` key, then
build the record with `clean(f"{artists} {name}")`. -/
def fetchOne (it : SpItem) : Except Unit (Option SrcRecord) :=
  match it.track with
  | none => .ok none
  | some tr =>
    match tr.artists.head? with
    | none => .error ()
    | some a =>
      match a.aname with
      | none => .error ()
      | some artist =>
        match tr.isrcEntry with
        | none => .error ()
        | some isrcVal =>
          .ok (some ⟨clean (artist ++ strT " " ++ pyFmt tr.tname), tr.tname, artist, isrcVal⟩)

/-- Embedding of `fetch_spotify_playlist_tracks` over the fully drained page
contents: ingest the items in order, propagating the first raise. -/
def fetch_spotify_playlist_tracks : List SpItem → Except Unit (List SrcRecord)
  | [] => .ok []
  | it :: rest =>
    match fetchOne it with
    | .error e => .error e
    | .ok r =>
      match fetch_spotify_playlist_tracks rest with
      | .error e => .error e
      | .ok rs =>
        match r with
        | none => .ok rs
        | some rec => .ok (rec :: rs)

/-- Did the fetch complete without raising? -/
def isOkE {α : Type} : Except Unit α → Bool
  | .ok _ => true
  | .error _ => false

/-- The precondition under which one item cannot make the fetch raise: its
track, when present, has a first artist carrying a name and a present
`external_ids.isrc` entry. -/
def itemOk (it : SpItem) : Bool :=
  match it.track with
  | none => true
  | some tr =>
    (match tr.artists.head? with
     | some a => a.aname.isSome
     | none => false) && tr.isrcEntry.isSome

deriving instance DecidableEq for Except

/-! Shared concrete material for counterexamples -/

/-- Concrete similarity oracle standing in for `fuzz.token_set_ratio` in
counterexamples: 100 for identical titles, 0 otherwise — the values the
token-set ratio yields on identical titles and on token-disjoint titles. -/
def eqRatio (a b : Text) : Int := if a == b then 100 else 0

/-! Ranking lemmas (similarity pass) -/

instance ascIdxTotal (scores : List Int) : IsTotal Nat (ascIdx scores) :=
  ⟨by intro i j; unfold ascIdx; omega⟩

instance ascIdxTrans (scores : List Int) : IsTrans Nat (ascIdx scores) :=
  ⟨by intro a b c hab hbc; unfold ascIdx at hab hbc ⊢; omega⟩

example : clean (strT "Foo (feat. Bar)") = strT "foo bar" := by decide
example : clean (strT "f&t.") = strT "ft." := by decide
example : clean (strT "ft.") = [] := by decide

theorem rankedIdx_perm (scores : List Int) :
    (rankedIdx scores).Perm (List.range scores.length) := by
  unfold rankedIdx argsortAsc
  exact (List.reverse_perm _).trans (List.perm_insertionSort _ _)

theorem rankedIdx_pairwise (scores : List Int) :
    (rankedIdx scores).Pairwise (fun i j => ascIdx scores j i) := by
  unfold rankedIdx
  rw [List.pairwise_reverse]
  exact List.sorted_insertionSort (ascIdx scores) (List.range scores.length)

/-! Claim C6 -/

/-- C6, counterexample: for two candidates with equal similarity scores the
ranking is `[1, 0]` — the tie comes out in reverse original order, not in the
original candidate order `[0, 1]` the claim's stable-sort tie-break requires
(the code reverses an ascending argsort wholesale). -/
theorem c6_ties_reversed_cex :
    rankedIdx [50, 50] = [1, 0] ∧ rankedIdx [50, 50] ≠ [0, 1] := by decide

/-- C6 (amended): the similarity pass ranks the candidate indices as a
permutation of `0..n-1` in descending score order, but ties are broken by
REVERSE original candidate order (the code reverses a stable ascending
argsort, so equal-score candidates appear latest-first). -/
theorem c6_ranking_descending_ties_reversed (scores : List Int) :
    (rankedIdx scores).Perm (List.range scores.length) ∧
    (rankedIdx scores).Pairwise (fun i j =>
      scores.getD j 0 < scores.getD i 0 ∨
      (scores.getD i 0 = scores.getD j 0 ∧ j ≤ i)) := by
  refine ⟨rankedIdx_perm scores, (rankedIdx_pairwise scores).imp ?_⟩
  intro i j h
  rcases h with h | ⟨h, hle⟩
  · exact Or.inl h
  · exact Or.inr ⟨h.symm, hle⟩

/-! Claim C2 -/

/-- C2, counterexample: under `Auto`, with source title "b" and candidates
titled "a" then "b" (scores 0 and 100), the matcher returns candidate 0 with
score 0, while the top-ranked candidate under the descending similarity
ranking is candidate 1 — `auto` returns `tracks[0]`, not the top-ranked
candidate. -/
theorem c2_auto_not_top_ranked_cex :
    search_tidal_by_name_and_artist eqRatio true (strT "b") (some (strT "I"))
        [⟨0, strT "a", strT "p", some (strT "X")⟩, ⟨1, strT "b", strT "q", some (strT "Y")⟩] [] =
      .matched ⟨0, strT "a", strT "p", some (strT "X")⟩ (.fuzzy 0) ∧
    rankedIdx (fuzzyScores eqRatio (strT "b")
        [⟨0, strT "a", strT "p", some (strT "X")⟩, ⟨1, strT "b", strT "q", some (strT "Y")⟩]) =
      [1, 0] ∧
    (⟨0, strT "a", strT "p", some (strT "X")⟩ : TTrack) ≠ ⟨1, strT "b", strT "q", some (strT "Y")⟩ := by
  decide

/-- C2 (amended): for every scorer, source track and non-empty candidate list
with no exact-identifier match, the `Auto` policy returns
`Matched(candidates[0], Fuzzy(score of candidates[0]))` — the FIRST candidate
in original search order, regardless of the similarity ranking — and never
returns Unmatched, however low the score. -/
theorem c2_auto_matches_first_result (ratio : Text → Text → Int) (sname : Text)
    (sisrc : Option Text) (t0 : TTrack) (ts : List TTrack) (inputs : List OpInput)
    (h : exactFind sisrc (t0 :: ts) = none) :
    search_tidal_by_name_and_artist ratio true sname sisrc (t0 :: ts) inputs =
      .matched t0 (.fuzzy (ratio sname t0.tname)) := by
  unfold search_tidal_by_name_and_artist
  rw [if_neg (by simp)]
  rw [h]
  simp [fuzzyScores]

/-- C2, witness for `c2_auto_matches_first_result` at a concrete input. -/
theorem c2_auto_matches_first_result_witness :
    exactFind (some (strT "I")) [(⟨0, strT "a", strT "p", some (strT "X")⟩ : TTrack)] = none ∧
    search_tidal_by_name_and_artist eqRatio true (strT "a") (some (strT "I"))
        [⟨0, strT "a", strT "p", some (strT "X")⟩] [] =
      .matched ⟨0, strT "a", strT "p", some (strT "X")⟩
        (.fuzzy (eqRatio (strT "a") (strT "a"))) :=
  ⟨by decide,
   c2_auto_matches_first_result eqRatio (strT "a") (some (strT "I"))
     ⟨0, strT "a", strT "p", some (strT "X")⟩ [] [] (by decide)⟩

/-! Claim C3 -/

/-- C3, counterexample: the exact-identifier pass is NOT restricted to a
present and non-empty source uniqueId: with the source isrc equal to the
empty string and a candidate whose isrc is also the empty string, the matcher
returns that candidate with `ExactId` confidence (Python compares the raw
values with `==`, with no presence or non-emptiness guard). -/
theorem c3_exact_pass_empty_id_cex :
    strT "" = ([] : Text) ∧
    search_tidal_by_name_and_artist eqRatio true (strT "t") (some [])
        [⟨0, strT "other", strT "w", some []⟩] [] =
      .matched ⟨0, strT "other", strT "w", some []⟩ .exactId := by decide

/-- C3 (amended): for every source track and candidate list in which some
candidate's uniqueId equals the source uniqueId under Python equality — with
no presence or non-emptiness requirement on the source value — the matcher
returns `Matched` of the first such candidate with `ExactId` under any
policy and any operator input: exact-identifier equality short-circuits
similarity scoring and is never reported as `Fuzzy`. -/
theorem c3_exact_id_short_circuits (ratio : Text → Text → Int) (auto : Bool)
    (sname : Text) (sisrc : Option Text) (tracks : List TTrack)
    (inputs : List OpInput) (c : TTrack) (h : exactFind sisrc tracks = some c) :
    search_tidal_by_name_and_artist ratio auto sname sisrc tracks inputs =
      .matched c .exactId := by
  unfold search_tidal_by_name_and_artist
  have hne : tracks.isEmpty = false := by
    cases tracks with
    | nil => simp [exactFind] at h
    | cons a l => simp
  simp [hne, h]

/-- C3, witness for `c3_exact_id_short_circuits` at a concrete input. -/
theorem c3_exact_id_short_circuits_witness :
    exactFind (some (strT "USX9P1000001"))
        [(⟨7, strT "zzz", strT "w", some (strT "USX9P1000001")⟩ : TTrack)] =
      some ⟨7, strT "zzz", strT "w", some (strT "USX9P1000001")⟩ ∧
    search_tidal_by_name_and_artist eqRatio false (strT "t") (some (strT "USX9P1000001"))
        [⟨7, strT "zzz", strT "w", some (strT "USX9P1000001")⟩] [] =
      .matched ⟨7, strT "zzz", strT "w", some (strT "USX9P1000001")⟩ .exactId :=
  ⟨by decide,
   c3_exact_id_short_circuits eqRatio false (strT "t") (some (strT "USX9P1000001"))
     [⟨7, strT "zzz", strT "w", some (strT "USX9P1000001")⟩] []
     ⟨7, strT "zzz", strT "w", some (strT "USX9P1000001")⟩ (by decide)⟩

/-! Claim C5 -/

/-- C5: with only three candidates (none an exact ISRC match), the operator
selection `5` is ACCEPTED — the validity set is the fixed `{1..9}` of the
nine-slot display, not the number of existing candidates — and the code then
evaluates `tracks[4]`, an out-of-bounds access that raises `IndexError`
instead of re-prompting. -/
theorem c5_out_of_range_selection_accepted :
    search_tidal_by_name_and_artist eqRatio false (strT "q") (some (strT "I"))
        [⟨0, strT "a", strT "p", some (strT "X")⟩,
         ⟨1, strT "b", strT "r", some (strT "Y")⟩,
         ⟨2, strT "c", strT "s", some (strT "Z")⟩]
        [.num 5] = .indexError 4 := by decide

/-! Claim C7 -/

/-- C7: with candidates titled "a" then "b" and source title "b", the ranked
display presents candidate 1 first; the operator's selection `1` nevertheless
returns candidate 0 (`tracks[selected - 1]` indexes the UNRANKED search-result
list), so the track returned is not the first presented candidate; an empty
response still yields the skip outcome. -/
theorem c7_selection_indexes_unranked_list :
    presentedTracks
        [⟨0, strT "a", strT "p", some (strT "X")⟩, ⟨1, strT "b", strT "q", some (strT "Y")⟩]
        (fuzzyScores eqRatio (strT "b")
          [⟨0, strT "a", strT "p", some (strT "X")⟩, ⟨1, strT "b", strT "q", some (strT "Y")⟩]) =
      [⟨1, strT "b", strT "q", some (strT "Y")⟩, ⟨0, strT "a", strT "p", some (strT "X")⟩] ∧
    search_tidal_by_name_and_artist eqRatio false (strT "b") (some (strT "I"))
        [⟨0, strT "a", strT "p", some (strT "X")⟩, ⟨1, strT "b", strT "q", some (strT "Y")⟩]
        [.num 1] = .matched ⟨0, strT "a", strT "p", some (strT "X")⟩ .userChosen ∧
    search_tidal_by_name_and_artist eqRatio false (strT "b") (some (strT "I"))
        [⟨0, strT "a", strT "p", some (strT "X")⟩, ⟨1, strT "b", strT "q", some (strT "Y")⟩]
        [.empty] = .skipped ∧
    (⟨0, strT "a", strT "p", some (strT "X")⟩ : TTrack) ≠ ⟨1, strT "b", strT "q", some (strT "Y")⟩ := by
  decide

/-! Batch-writer lemmas -/

theorem flushSim_spec (chunk : Nat) (hch : 0 < chunk) :
    ∀ (results : List (Option Nat)) (batch : List Nat), batch.length < chunk →
      (∀ l ∈ (flushSim chunk results batch).1, l.length = chunk) ∧
      (flushSim chunk results batch).2.length < chunk ∧
      (flushSim chunk results batch).1.flatten ++ (flushSim chunk results batch).2 =
        batch ++ results.filterMap id := by
  intro results
  induction results with
  | nil =>
    intro batch hb
    simp [flushSim, hb]
  | cons r rs ih =>
    intro batch hb
    cases r with
    | none =>
      simpa [flushSim] using ih batch hb
    | some tid =>
      by_cases hc : (batch ++ [tid]).length = chunk
      · obtain ⟨h1, h2, h3⟩ := ih [] hch
        simp only [flushSim, hc, if_pos]
        refine ⟨?_, h2, ?_⟩
        · intro l hl
          rcases List.mem_cons.mp hl with h | h
          · rw [h, hc]
          · exact h1 l h
        · simp only [List.flatten_cons, List.filterMap_cons, id_eq, List.append_assoc]
          rw [h3]
          simp
      · have hlt : (batch ++ [tid]).length < chunk := by
          simp only [List.length_append, List.length_cons, List.length_nil] at hc ⊢
          omega
        obtain ⟨h1, h2, h3⟩ := ih (batch ++ [tid]) hlt
        simp only [flushSim, hc, if_neg, not_false_iff]
        refine ⟨h1, h2, ?_⟩
        rw [h3]
        simp


/-! Claim C8 -/

/-- C8: for every sequence of per-track match results and every positive
chunk size, the batch writer issues exactly `floor(n / chunkSize)` full-chunk
bulk-adds during processing (`n` = number of matched tracks) plus one final
flush of the `n mod chunkSize` remainder, where an empty remainder issues no
call, and the identifiers across all bulk-adds are the matched identifiers in
source order. -/
theorem c8_batch_writer_flush_counts (chunk : Nat) (results : List (Option Nat))
    (hch : 0 < chunk) : batchSpec chunk results := by
  obtain ⟨h1, h2, h3⟩ := flushSim_spec chunk hch results [] hch
  have hjlen : (flushSim chunk results []).1.flatten.length =
      chunk * (flushSim chunk results []).1.length := by
    rw [List.length_flatten]
    have hmem : ∀ x ∈ (flushSim chunk results []).1.map List.length, x = chunk := by
      intro x hx
      rcases List.mem_map.mp hx with ⟨l, hl, rfl⟩
      exact h1 l hl
    rw [List.sum_eq_card_nsmul _ chunk hmem]
    simp [Nat.mul_comm]
  have hm : chunk * (flushSim chunk results []).1.length +
      (flushSim chunk results []).2.length = (results.filterMap id).length := by
    have := congrArg List.length h3
    simpa [List.length_append, hjlen] using this
  refine ⟨?_, h1, ?_, ?_, ?_⟩
  · rw [← hm, Nat.mul_add_div hch, Nat.div_eq_of_lt h2, Nat.add_zero]
  · rw [← hm, Nat.mul_add_mod, Nat.mod_eq_of_lt h2]
  · unfold runFlushes
    by_cases he : (flushSim chunk results []).2.isEmpty
    · rw [if_pos he]
      have h0 : (flushSim chunk results []).2 = [] := List.isEmpty_iff.mp he
      simpa [h0] using h3
    · rw [if_neg he]
      simpa using h3
  · intro h0
    unfold runFlushes
    rw [if_pos (by simp [h0])]

/-- C8, witness for `c8_batch_writer_flush_counts`: chunk size 2 with three
matched tracks among four results. -/
theorem c8_batch_writer_flush_counts_witness :
    0 < 2 ∧ batchSpec 2 [some 1, none, some 2, some 3] :=
  ⟨by decide, c8_batch_writer_flush_counts 2 [some 1, none, some 2, some 3] (by decide)⟩

/-! Claim C1 -/

/-- C1, counterexample: `chunkSize = 2`, five matched tracks, fresh state.
The run's event trace is three bulk-adds followed by a single state write
recording `processedCount = 5`; in particular NO event writes a state with
`processedCount = 2`, so an interruption after the first flush leaves the
state file at the pre-run `processedCount = 0` and a re-run reprocesses all
five tracks — not the claimed resume at 2. -/
theorem c1_no_per_flush_persist_cex :
    (syncPlaylist 2 (fun t : Nat => some t) ⟨0, []⟩ [0, 1, 2, 3, 4]).1 =
      [.flush [0, 1], .flush [2, 3], .flush [4], .persist ⟨5, []⟩] ∧
    Ev.persist (⟨2, []⟩ : PlState Nat) ∉
      (syncPlaylist 2 (fun t : Nat => some t) ⟨0, []⟩ [0, 1, 2, 3, 4]).1 := by decide

/-- C1 (amended): in every per-playlist run the SyncState is persisted
exactly once, as the final event after ALL bulk-adds, with `processedCount`
advanced by the whole number of tracks processed in the run; no state write
follows an individual flush, so a crash mid-playlist resumes from the state
persisted before the run began and loses the entire playlist's progress of
that run, not just one partial batch. -/
theorem c1_persist_once_at_run_end {α : Type} (chunk : Nat) (find : α → Option Nat)
    (st : PlState α) (tracks : List α) :
    (∀ e ∈ (syncPlaylist chunk find st tracks).1.dropLast, e.isPersist = false) ∧
    (syncPlaylist chunk find st tracks).1.getLast? =
      some (.persist (syncPlaylist chunk find st tracks).2) ∧
    (syncPlaylist chunk find st tracks).2.idx = st.idx + (tracks.drop st.idx).length := by
  refine ⟨?_, ?_, rfl⟩
  · intro e he
    unfold syncPlaylist at he
    rw [List.dropLast_concat] at he
    rcases List.mem_map.mp he with ⟨ids, _, rfl⟩
    rfl
  · unfold syncPlaylist
    rw [List.getLast?_concat]

/-! Claim C9 -/

/-- C9: running the per-playlist sync twice on the same track list with the
same (unchanged-catalog) match oracle, starting from a fresh state: the
first run ends with `processedCount = len(tracks)`; the second run skips
exactly that many tracks (none remain after the skip), issues zero bulk-adds
to the target playlist, and leaves the state unchanged. -/
theorem c9_second_run_adds_nothing {α : Type} (chunk : Nat) (find : α → Option Nat)
    (tracks : List α) :
    (syncPlaylist chunk find ⟨0, []⟩ tracks).2.idx = tracks.length ∧
    tracks.drop (syncPlaylist chunk find ⟨0, []⟩ tracks).2.idx = [] ∧
    (syncPlaylist chunk find (syncPlaylist chunk find ⟨0, []⟩ tracks).2 tracks).1.filter
        (fun e => !e.isPersist) = [] ∧
    (syncPlaylist chunk find (syncPlaylist chunk find ⟨0, []⟩ tracks).2 tracks).2 =
      (syncPlaylist chunk find ⟨0, []⟩ tracks).2 := by
  have hidx : (syncPlaylist chunk find ⟨0, []⟩ tracks).2.idx = tracks.length := by
    simp [syncPlaylist]
  have hdrop : tracks.drop (syncPlaylist chunk find ⟨0, []⟩ tracks).2.idx = [] := by
    rw [hidx, List.drop_length]
  refine ⟨hidx, hdrop, ?_, ?_⟩
  · simp [syncPlaylist, hdrop, runFlushes, flushSim, Ev.isPersist]
  · simp [syncPlaylist, hdrop]

/-! Claim C10 -/

/-- C10, counterexample: a playlist item whose track has NO name (the code
reads it with `.get("name")`, which cannot raise) but has an artist and an
isrc is ingested without error — the fetch is total on it, with the query
built from the f-string rendering `"A None"` — so totality does not require
every track to carry a name, contrary to the claimed precondition. -/
theorem c10_fetch_total_without_name_cex :
    fetch_spotify_playlist_tracks
        [⟨some ⟨none, [⟨some (strT "A")⟩], some (some (strT "I"))⟩⟩] =
      .ok [⟨strT "a none", none, strT "A", some (strT "I")⟩] := by decide

theorem fetchOne_ok_iff (it : SpItem) : isOkE (fetchOne it) = itemOk it := by
  obtain ⟨tr⟩ := it
  cases tr with
  | none => rfl
  | some t =>
    obtain ⟨nm, arts, ie⟩ := t
    cases harts : arts.head? with
    | none => simp [fetchOne, itemOk, harts, isOkE]
    | some a =>
      obtain ⟨an⟩ := a
      cases an with
      | none => simp [fetchOne, itemOk, harts, isOkE]
      | some nm2 =>
        cases ie with
        | none => simp [fetchOne, itemOk, harts, isOkE]
        | some v => simp [fetchOne, itemOk, harts, isOkE]

/-! Normalizer lemmas (claim C4) -/

theorem lowerCp_idem (n : Nat) : lowerCp (lowerCp n) = lowerCp n := by
  unfold lowerCp
  by_cases h : 65 ≤ n ∧ n ≤ 90
  · rw [if_pos h, if_neg (by omega)]
  · rw [if_neg h, if_neg h]

theorem map_id_of_mem {f : Nat → Nat} : ∀ (l : Text), (∀ x ∈ l, f x = x) → l.map f = l := by
  intro l h
  induction l with
  | nil => rfl
  | cons c rest ih =>
    rw [List.map_cons, h c (by simp), ih (fun x hx => h x (by simp [hx]))]

theorem removeNoiseF_subset (toks : List Text) :
    ∀ (fuel : Nat) (s : Text), removeNoiseF toks fuel s ⊆ s := by
  intro fuel
  induction fuel with
  | zero => intro s x hx; simp [removeNoiseF] at hx
  | succ n ih =>
    intro s
    cases s with
    | nil => intro x hx; simp [removeNoiseF] at hx
    | cons c rest =>
      intro x hx
      rw [removeNoiseF] at hx
      cases hf : findTok toks (c :: rest) with
      | some t =>
        rw [hf] at hx
        exact List.mem_cons_of_mem _ (List.drop_subset _ _ (ih _ hx))
      | none =>
        rw [hf] at hx
        rcases List.mem_cons.mp hx with h | h
        · exact h ▸ List.mem_cons_self _ _
        · exact List.mem_cons_of_mem _ (ih rest h)

theorem mem_hyph {x : Nat} {s : Text} (h : x ∈ hyph s) : x = 32 ∨ x ∈ s := by
  rcases List.mem_map.mp h with ⟨y, hy, hxy⟩
  by_cases hc : y = 45
  · left; simp [hc] at hxy; omega
  · right
    simp [hc] at hxy
    exact hxy ▸ hy

theorem hyph_no_hyphen {x : Nat} {s : Text} (h : x ∈ hyph s) : x ≠ 45 := by
  rcases List.mem_map.mp h with ⟨y, hy, hxy⟩
  by_cases hc : y = 45 <;> simp [hc] at hxy <;> omega

theorem mem_squeezeF : ∀ (fuel : Nat) (s : Text) (x : Nat),
    x ∈ squeezeF fuel s → x = 32 ∨ x ∈ s := by
  intro fuel
  induction fuel with
  | zero => intro s x hx; simp [squeezeF] at hx
  | succ n ih =>
    intro s x hx
    cases s with
    | nil => simp [squeezeF] at hx
    | cons c rest =>
      rw [squeezeF] at hx
      by_cases hc : isWsCp c
      · rw [if_pos hc] at hx
        rcases List.mem_cons.mp hx with h | h
        · left; exact h
        · rcases ih _ _ h with h2 | h2
          · left; exact h2
          · right
            exact List.mem_cons_of_mem _ (List.dropWhile_sublist isWsCp |>.subset h2)
      · rw [if_neg hc] at hx
        rcases List.mem_cons.mp hx with h | h
        · right; exact h ▸ List.mem_cons_self _ _
        · rcases ih _ _ h with h2 | h2
          · left; exact h2
          · right; exact List.mem_cons_of_mem _ h2

theorem mem_strip {x : Nat} {s : Text} (h : x ∈ strip s) : x ∈ s := by
  unfold strip at h
  rw [List.mem_reverse] at h
  have h2 := (List.dropWhile_sublist isWsCp |>.subset) h
  rw [List.mem_reverse] at h2
  exact (List.dropWhile_sublist isWsCp |>.subset) h2

theorem clean_chars (s : Text) : ∀ x ∈ clean s, lowerCp x = x ∧ x ≠ 45 := by
  intro x hx
  unfold clean squeeze at hx
  have hx1 := mem_strip hx
  rcases mem_squeezeF _ _ _ hx1 with h32 | hx2
  · subst h32
    exact ⟨rfl, by omega⟩
  · constructor
    · rcases mem_hyph hx2 with h32 | hx3
      · subst h32; rfl
      · have hx4 := removeNoiseF_subset noiseTokens _ _ hx3
        rcases List.mem_map.mp hx4 with ⟨y, _, rfl⟩
        exact lowerCp_idem y
    · exact hyph_no_hyphen hx2

/-- C4, counterexample: `normalize` is NOT idempotent.  On "f&t." the single
deletion pass removes the "&" and thereby CREATES the noise token "ft.",
which survives the run: `normalize("f&t.") = "ft."` but
`normalize("ft.") = ""`. -/
theorem c4_clean_not_idempotent_cex :
    clean (strT "f&t.") = strT "ft." ∧
    clean (clean (strT "f&t.")) ≠ clean (strT "f&t.") := by decide


theorem headNonWs_dropWhile (l : Text) : headNonWs (l.dropWhile isWsCp) := by
  induction l with
  | nil => trivial
  | cons c rest ih =>
    rw [List.dropWhile_cons]
    by_cases h : isWsCp c
    · rw [if_pos h]; exact ih
    · rw [if_neg h]
      show isWsCp c = false
      simpa using h

theorem headNonWs_head? {l : Text} (h : headNonWs l) {c : Nat}
    (hc : l.head? = some c) : isWsCp c = false := by
  cases l with
  | nil => simp at hc
  | cons a rest =>
    simp at hc
    exact hc ▸ h

theorem dropWhile_id_of_headNonWs {l : Text} (h : headNonWs l) :
    l.dropWhile isWsCp = l := by
  cases l with
  | nil => rfl
  | cons c rest =>
    have hc : isWsCp c = false := h
    rw [List.dropWhile_cons, if_neg (by simp [hc])]

theorem wsAll32_squeezeF : ∀ (fuel : Nat) (s : Text), wsAll32 (squeezeF fuel s) := by
  intro fuel
  induction fuel with
  | zero => intro s x hx; simp [squeezeF] at hx
  | succ n ih =>
    intro s x hx hws
    cases s with
    | nil => simp [squeezeF] at hx
    | cons c rest =>
      rw [squeezeF] at hx
      by_cases hc : isWsCp c
      · rw [if_pos hc] at hx
        rcases List.mem_cons.mp hx with h | h
        · exact h
        · exact ih _ x h hws
      · rw [if_neg hc] at hx
        rcases List.mem_cons.mp hx with h | h
        · subst h; simp [hws] at hc
        · exact ih _ x h hws

theorem headNonWs_squeezeF (fuel : Nat) (w : Text) (hw : headNonWs w) :
    headNonWs (squeezeF fuel w) := by
  cases fuel with
  | zero => cases w <;> trivial
  | succ n =>
    cases w with
    | nil => trivial
    | cons c rest =>
      have hc : isWsCp c = false := hw
      rw [squeezeF, if_neg (by simp [hc])]
      exact hc

theorem wsNoAdj_squeezeF : ∀ (fuel : Nat) (s : Text), wsNoAdj (squeezeF fuel s) := by
  intro fuel
  induction fuel with
  | zero => intro s; cases s <;> simp [squeezeF]
  | succ n ih =>
    intro s
    cases s with
    | nil => simp [squeezeF]
    | cons c rest =>
      rw [squeezeF]
      by_cases hc : isWsCp c
      · rw [if_pos hc]
        refine List.chain'_cons'.mpr ⟨?_, ?_⟩
        · intro y hy
          have hh : headNonWs (squeezeF n (rest.dropWhile isWsCp)) :=
            headNonWs_squeezeF n _ (headNonWs_dropWhile rest)
          have hyf : isWsCp y = false := headNonWs_head? hh (Option.mem_def.mp hy)
          intro hcon
          rw [hyf] at hcon
          exact Bool.false_ne_true hcon.2
        · exact ih _
      · rw [if_neg hc]
        refine List.chain'_cons'.mpr ⟨?_, ?_⟩
        · intro y hy hcon
          exact hc hcon.1
        · exact ih _

theorem wsNoAdj_dropWhile : ∀ {l : Text}, wsNoAdj l → wsNoAdj (l.dropWhile isWsCp) := by
  intro l
  induction l with
  | nil => intro h; exact h
  | cons c rest ih =>
    intro h
    rw [List.dropWhile_cons]
    by_cases hc : isWsCp c
    · rw [if_pos hc]; exact ih h.tail
    · rw [if_neg hc]; exact h

theorem wsNoAdj_reverse {l : Text} (h : wsNoAdj l) : wsNoAdj l.reverse := by
  refine List.chain'_reverse.mpr ?_
  exact h.imp (fun a b hab => fun hp => hab ⟨hp.2, hp.1⟩)

theorem wsNoAdj_strip {l : Text} (h : wsNoAdj l) : wsNoAdj (strip l) := by
  unfold strip
  exact wsNoAdj_reverse (wsNoAdj_dropWhile (wsNoAdj_reverse (wsNoAdj_dropWhile h)))

theorem headNonWs_strip (s : Text) : headNonWs (strip s) := by
  have h1 : strip s <+: s.dropWhile isWsCp := by
    rw [← List.reverse_suffix]
    show ((s.dropWhile isWsCp).reverse.dropWhile isWsCp).reverse.reverse <:+
      (s.dropWhile isWsCp).reverse
    rw [List.reverse_reverse]
    exact List.dropWhile_suffix _
  have h2 := headNonWs_dropWhile s
  obtain ⟨t, ht⟩ := h1
  cases hs : strip s with
  | nil => trivial
  | cons c cs =>
    rw [hs] at ht
    have h3 : s.dropWhile isWsCp = c :: (cs ++ t) := by rw [← ht]; rfl
    rw [h3] at h2
    exact h2

theorem lastNonWs_strip (s : Text) : headNonWs (strip s).reverse := by
  unfold strip
  rw [List.reverse_reverse]
  exact headNonWs_dropWhile _

theorem strip_fix {w : Text} (hh : headNonWs w) (hl : headNonWs w.reverse) :
    strip w = w := by
  unfold strip
  rw [dropWhile_id_of_headNonWs hh, dropWhile_id_of_headNonWs hl, List.reverse_reverse]

theorem squeezeF_fix : ∀ (fuel : Nat) (w : Text), wsAll32 w → wsNoAdj w → headNonWs w →
    w.length ≤ fuel → squeezeF fuel w = w := by
  intro fuel
  induction fuel using Nat.strong_induction_on with
  | h fuel ih =>
    intro w h32 hadj hhead hlen
    cases w with
    | nil => cases fuel <;> rfl
    | cons c rest =>
      cases fuel with
      | zero => simp at hlen
      | succ f =>
        have hc : isWsCp c = false := hhead
        rw [squeezeF, if_neg (by simp [hc])]
        congr 1
        cases rest with
        | nil => cases f <;> rfl
        | cons d rest2 =>
          have hlen2 : (d :: rest2).length ≤ f := by
            simp only [List.length_cons] at hlen ⊢
            omega
          have h32t : wsAll32 (d :: rest2) :=
            fun x hx hw => h32 x (List.mem_cons_of_mem _ hx) hw
          have hadjt : wsNoAdj (d :: rest2) := hadj.tail
          by_cases hd : isWsCp d = true
          · have hd32 : d = 32 := h32t d (List.mem_cons_self _ _) hd
            have hhead2 : headNonWs rest2 := by
              cases rest2 with
              | nil => trivial
              | cons e rest3 =>
                have hre := (List.chain'_cons.mp hadjt).1
                show isWsCp e = false
                by_cases he : isWsCp e = true
                · exact absurd ⟨hd, he⟩ hre
                · simpa using he
            cases f with
            | zero => simp at hlen2
            | succ f2 =>
              rw [squeezeF, if_pos hd]
              rw [dropWhile_id_of_headNonWs hhead2]
              have h32t2 : wsAll32 rest2 :=
                fun x hx hw => h32t x (List.mem_cons_of_mem _ hx) hw
              have hadjt2 : wsNoAdj rest2 := hadjt.tail
              rw [ih f2 (by omega) rest2 h32t2 hadjt2 hhead2
                (by simp only [List.length_cons] at hlen2; omega)]
              rw [hd32]
          · have hhead2 : headNonWs (d :: rest2) := by
              show isWsCp d = false
              simpa using hd
            exact ih f (by omega) (d :: rest2) h32t hadjt hhead2 hlen2

/-- C4 (amended): `normalize` is idempotent exactly on the inputs whose
normalized form is free of noise-token occurrences — the condition the
counterexample shows can fail, because the single deletion pass can create a
new token occurrence.  For every input `s` whose normalized form the deletion
pass leaves unchanged, `normalize (normalize s) = normalize s`. -/
theorem c4_clean_idempotent_of_noise_free (s : Text)
    (h : removeNoise noiseTokens (clean s) = clean s) :
    clean (clean s) = clean s := by
  have hch := clean_chars s
  have hmap : (clean s).map lowerCp = clean s :=
    map_id_of_mem _ (fun x hx => (hch x hx).1)
  have hhyph : hyph (clean s) = clean s := by
    unfold hyph
    exact map_id_of_mem _ (fun x hx => by simp [(hch x hx).2])
  have h32 : wsAll32 (clean s) := by
    intro x hx hw
    unfold clean squeeze at hx
    exact wsAll32_squeezeF _ _ x (mem_strip hx) hw
  have hadj : wsNoAdj (clean s) := by
    unfold clean squeeze
    exact wsNoAdj_strip (wsNoAdj_squeezeF _ _)
  have hhead : headNonWs (clean s) := by
    unfold clean
    exact headNonWs_strip _
  have hlast : headNonWs (clean s).reverse := by
    unfold clean
    exact lastNonWs_strip _
  have hsq : squeeze (clean s) = clean s := by
    unfold squeeze
    exact squeezeF_fix _ _ h32 hadj hhead le_rfl
  have hst : strip (clean s) = clean s := strip_fix hhead hlast
  show strip (squeeze (hyph (removeNoise noiseTokens ((clean s).map lowerCp)))) = clean s
  rw [hmap, h, hhyph, hsq, hst]

/-- C4, witness for `c4_clean_idempotent_of_noise_free`: the spec's own
example input, whose normalized form "foo bar" contains no noise token. -/
theorem c4_clean_idempotent_witness :
    removeNoise noiseTokens (clean (strT "Foo (feat. Bar)")) = clean (strT "Foo (feat. Bar)") ∧
    clean (clean (strT "Foo (feat. Bar)")) = clean (strT "Foo (feat. Bar)") :=
  ⟨by decide, c4_clean_idempotent_of_noise_free (strT "Foo (feat. Bar)") (by decide)⟩

/-- C10 (amended): the fetch of source playlist tracks completes without
raising exactly when every present track has at least one artist whose entry
carries a name and a present `external_ids`/`isrc` entry; a missing track
name does NOT make it raise (it is read with `.get`), while a missing isrc
key or artist entry raises instead of producing a record with an absent
identifier. -/
theorem c10_fetch_total_iff_items_ok (items : List SpItem) :
    isOkE (fetch_spotify_playlist_tracks items) = items.all itemOk := by
  induction items with
  | nil => rfl
  | cons it rest ih =>
    rw [List.all_cons, ← fetchOne_ok_iff it, ← ih]
    show isOkE (match fetchOne it with
      | .error e => .error e
      | .ok r =>
        match fetch_spotify_playlist_tracks rest with
        | .error e => .error e
        | .ok rs =>
          match r with
          | none => .ok rs
          | some rec => .ok (rec :: rs)) = _
    cases fetchOne it with
    | error e => rfl
    | ok r =>
      cases fetch_spotify_playlist_tracks rest with
      | error e => cases r <;> rfl
      | ok rs => cases r <;> rfl

end S2T
